import Mathlib

/-!
Shallow embedding of the crypto trading engine (risk manager, signal
ensemble, market microstructure, volatility model) with rational numbers
standing for Python floats.  Every definition is translated directly from
the Python source under `python_engine/crypto/`.
-/

namespace Crypto

/-! ## Constants from `config.py` -/

def MAX_TOTAL_CAPITAL_KRW : ℚ := 50000000
def MIN_CASH_RESERVE_RATIO : ℚ := 1/5
def MAX_SINGLE_POSITION_RATIO : ℚ := 1/5
def MAX_CONCURRENT_POSITIONS : ℕ := 3
def DAILY_CVAR_LIMIT : ℚ := -(3/100)
def OBI_DEPTH_LEVELS : ℕ := 10
def VPIN_BUCKET_SIZE : ℕ := 50
def VPIN_NUM_BUCKETS : ℕ := 50
def STOP_LOSS_MULTIPLIER : ℚ := 2
def TRAILING_ACTIVATION_PCT : ℚ := 3/200
def TRAILING_OFFSET_MULTIPLIER : ℚ := 3/2
def KELLY_FRACTION : ℚ := 1/4
def KELLY_MIN_TRADES_FOR_CALC : ℕ := 20
def MAX_CONSECUTIVE_LOSSES : ℕ := 3
def COOLDOWN_SECONDS : ℚ := 1800

/-! ## List helpers modelling numpy / python builtins -/

/-- Mean of a list of rationals (`np.mean`); 0 on the empty list
(via rational division by zero). -/
def listMean (l : List ℚ) : ℚ := l.sum / (l.length : ℚ)

/-- Python `max(l)` for a nonempty list; the `if recent else 1` fallback of
`market_microstructure.py` line 204 supplies 1 on the empty list. -/
def maxD : List ℚ → ℚ
  | [] => 1
  | x :: xs => max x (maxD xs)

/-- Append to a `collections.deque` with `maxlen`: the oldest entries are
dropped once the length exceeds `maxlen`. -/
def dequePush (maxlen : ℕ) (l : List ℚ) (a : ℚ) : List ℚ :=
  let l' := l ++ [a]
  l'.drop (l'.length - maxlen)

/-- Python slice `l[-n:]`. -/
def lastN (n : ℕ) (l : List ℚ) : List ℚ := l.drop (l.length - n)

/-- `np.clip(x, lo, hi)`. -/
def clip (x lo hi : ℚ) : ℚ := max lo (min x hi)

/-! ## `volatility_model.py` — `VolatilityModel.get_signal` -/

/-- Embedding of `VolatilityModel.get_signal` (volatility_model.py lines
128-142), a function of the stored `_current_rv`. -/
def get_signal (current_rv : ℚ) : ℚ :=
  if 1/20 < current_rv then -1
  else if 3/100 < current_rv then -(1/2)
  else if 1/100 < current_rv then 0
  else 1/2

/-! ## `signal_ensemble.py` — `SignalEnsemble.compute_final_score` -/

structure EnsembleWeights where
  obi : ℚ
  vpin : ℚ
  momentum : ℚ
  regime : ℚ
  sentiment : ℚ
  funding : ℚ
  volatility : ℚ
deriving DecidableEq, Repr

/-- `ENSEMBLE_WEIGHTS` from config.py lines 79-87. -/
def ENSEMBLE_WEIGHTS : EnsembleWeights :=
  ⟨3/10, 3/20, 3/20, 3/20, 1/10, 1/10, 1/20⟩

/-- The weight-adjustment block of `compute_final_score`
(signal_ensemble.py lines 143-171): a sentiment or funding signal that is
exactly 0.0 is treated as absent, its weight zeroed, and the five
technical weights scaled by `1 + missing_weight / active_weight_sum`. -/
def adjustedWeights (sentiment_signal funding_signal : ℚ) : EnsembleWeights :=
  let w := ENSEMBLE_WEIGHTS
  let missing_sent : ℚ := if sentiment_signal = 0 then w.sentiment else 0
  let w_sent : ℚ := if sentiment_signal = 0 then 0 else w.sentiment
  let missing_fund : ℚ := if funding_signal = 0 then w.funding else 0
  let w_fund : ℚ := if funding_signal = 0 then 0 else w.funding
  let missing_weight := missing_sent + missing_fund
  if 0 < missing_weight then
    let active_weight_sum := w.obi + w.vpin + w.momentum + w.regime + w.volatility
    if 0 < active_weight_sum then
      let scale := 1 + missing_weight / active_weight_sum
      ⟨w.obi * scale, w.vpin * scale, w.momentum * scale, w.regime * scale,
        w_sent, w_fund, w.volatility * scale⟩
    else
      ⟨w.obi, w.vpin, w.momentum, w.regime, w_sent, w_fund, w.volatility⟩
  else
    ⟨w.obi, w.vpin, w.momentum, w.regime, w_sent, w_fund, w.volatility⟩

/-- The rescale factor of the claim, `1 + missing_weight /
active_weight_sum`, with the missing weight collected from an absent
(exactly-zero) sentiment and/or funding signal and the active sum taken
over the five technical weights. -/
def ensembleScale (sentiment_signal funding_signal : ℚ) : ℚ :=
  1 + ((if sentiment_signal = 0 then ENSEMBLE_WEIGHTS.sentiment else 0)
      + (if funding_signal = 0 then ENSEMBLE_WEIGHTS.funding else 0))
    / (ENSEMBLE_WEIGHTS.obi + ENSEMBLE_WEIGHTS.vpin
      + ENSEMBLE_WEIGHTS.momentum + ENSEMBLE_WEIGHTS.regime
      + ENSEMBLE_WEIGHTS.volatility)

structure EnsembleResult where
  score : ℚ
  action : String
  confidence : ℚ
  vpin_warning : Bool
deriving DecidableEq, Repr

/-- Embedding of `SignalEnsemble.compute_final_score` (signal_ensemble.py
lines 123-224). -/
def compute_final_score (obi_signal vpin_signal momentum_signal regime_signal
    sentiment_signal funding_signal volatility_signal : ℚ) : EnsembleResult :=
  let w := adjustedWeights sentiment_signal funding_signal
  let score :=
    w.obi * obi_signal + w.vpin * vpin_signal + w.momentum * momentum_signal
      + w.regime * regime_signal + w.sentiment * sentiment_signal
      + w.funding * funding_signal + w.volatility * volatility_signal
  let action :=
    if 7/10 ≤ score then "strong_buy"
    else if 1/2 ≤ score then "buy"
    else if score ≤ -(7/10) then "strong_sell"
    else if score ≤ -(3/10) then "sell"
    else "hold"
  let signals := [obi_signal, momentum_signal, regime_signal,
    sentiment_signal, funding_signal]
  let positive := (signals.filter (fun s => decide (1/10 < s))).length
  let negative := (signals.filter (fun s => decide (s < -(1/10)))).length
  let confidence :=
    if 0 < positive + negative then
      ((max positive negative : ℕ) : ℚ) / ((signals.length : ℕ) : ℚ)
    else 0
  ⟨clip score (-1) 1, action, confidence, decide (vpin_signal < -(1/2))⟩

/-! ## `market_microstructure.py` — OBI -/

structure BookLevel where
  price : ℚ
  quantity : ℚ
deriving DecidableEq, Repr

/-- `depth = min(OBI_DEPTH_LEVELS, len(bids), len(asks))`
(market_microstructure.py line 99). -/
def obiDepth (bids asks : List BookLevel) : ℕ :=
  min OBI_DEPTH_LEVELS (min bids.length asks.length)

/-- `total_bid`: summed quantity of the top `depth` bid levels
(market_microstructure.py line 103). -/
def totalBid (bids asks : List BookLevel) : ℚ :=
  ((bids.take (obiDepth bids asks)).map BookLevel.quantity).sum

/-- `total_ask`: summed quantity of the top `depth` ask levels
(market_microstructure.py line 104). -/
def totalAsk (bids asks : List BookLevel) : ℚ :=
  ((asks.take (obiDepth bids asks)).map BookLevel.quantity).sum

/-- The order-book-imbalance computation returned by
`MarketMicrostructure.update_orderbook` (market_microstructure.py lines
98-111, 154): sum the quantities of the top `min(10, len(bids), len(asks))`
levels of each side; 0 when either book is empty or the total is zero. -/
def update_orderbook_obi (bids asks : List BookLevel) : ℚ :=
  if obiDepth bids asks = 0 then 0
  else if totalBid bids asks + totalAsk bids asks = 0 then 0
  else (totalBid bids asks - totalAsk bids asks)
    / (totalBid bids asks + totalAsk bids asks)

/-! ## `market_microstructure.py` — VPIN (`update_trade`) -/

/-- One entry of the open VPIN `trade_bucket` (market_microstructure.py
lines 184-187). -/
structure TradeVol where
  buy_volume : ℚ
  sell_volume : ℚ
deriving DecidableEq, Repr

/-- The per-symbol fields of `SymbolMicroState` touched by `update_trade`
(market_microstructure.py lines 28-53): the open trade bucket, the closed
VPIN buckets (`deque(maxlen=100)`), the current VPIN, the Amihud history
(`deque(maxlen=100)`) and mean, the last traded price and the bounded
price window (`deque(maxlen=2000)`). -/
structure MicroState where
  trade_bucket : List TradeVol
  vpin_buckets : List ℚ
  current_vpin : ℚ
  amihud_history : List ℚ
  current_amihud : ℚ
  last_price : ℚ
  prices : List ℚ
deriving DecidableEq, Repr

/-- Fresh `SymbolMicroState` of a symbol seen for the first time. -/
def initMicroState : MicroState := ⟨[], [], 0, [], 0, 0, []⟩

/-- Embedding of `MarketMicrostructure.update_trade`
(market_microstructure.py lines 157-210).  The returned value is the new
`current_vpin` (the state field after the update). -/
def update_trade (st : MicroState) (price quantity : ℚ) (side : String) :
    MicroState :=
  let prices := dequePush 2000 st.prices price
  let amihud :=
    match st.prices.getLast? with
    | none => (st.amihud_history, st.current_amihud)
    | some prev =>
      let ret := |(price - prev) / prev|
      if 0 < quantity then
        let illiq := ret / (quantity * price)
        let ah := dequePush 100 st.amihud_history illiq
        if 20 ≤ ah.length then (ah, listMean (lastN 20 ah))
        else (ah, st.current_amihud)
      else (st.amihud_history, st.current_amihud)
  let trade_info : TradeVol :=
    ⟨if side = "bid" then quantity else 0, if side = "ask" then quantity else 0⟩
  let bucket := st.trade_bucket ++ [trade_info]
  if VPIN_BUCKET_SIZE ≤ bucket.length then
    let bucket_buy := (bucket.map TradeVol.buy_volume).sum
    let bucket_sell := (bucket.map TradeVol.sell_volume).sum
    let vb := dequePush 100 st.vpin_buckets |bucket_buy - bucket_sell|
    if VPIN_NUM_BUCKETS ≤ vb.length then
      let recent := lastN VPIN_NUM_BUCKETS vb
      let max_imbalance := maxD recent
      let vpin := if 0 < max_imbalance then listMean recent / max_imbalance else 0
      ⟨[], vb, vpin, amihud.1, amihud.2, price, prices⟩
    else ⟨[], vb, st.current_vpin, amihud.1, amihud.2, price, prices⟩
  else ⟨bucket, st.vpin_buckets, st.current_vpin, amihud.1, amihud.2, price, prices⟩

/-- Run `update_trade` over a whole list of `(price, quantity, side)`
ticks, starting from the fresh state. -/
def runTrades (evs : List (ℚ × ℚ × String)) : MicroState :=
  evs.foldl (fun st e => update_trade st e.1 e.2.1 e.2.2) initMicroState

/-- The VPIN value the spec describes: mean of the last
`VPIN_NUM_BUCKETS` imbalances divided by their maximum. -/
def vpinValue (vb : List ℚ) : ℚ :=
  listMean (lastN VPIN_NUM_BUCKETS vb) / maxD (lastN VPIN_NUM_BUCKETS vb)

/-- Invariant of the per-symbol VPIN state, preserved by every
`update_trade` call. -/
def MicroInv (st : MicroState) : Prop :=
  st.trade_bucket.length < VPIN_BUCKET_SIZE
    ∧ (∀ x ∈ st.vpin_buckets, 0 ≤ x)
    ∧ (st.vpin_buckets.length < VPIN_NUM_BUCKETS → st.current_vpin = 0)
    ∧ (VPIN_NUM_BUCKETS ≤ st.vpin_buckets.length →
        st.current_vpin = vpinValue st.vpin_buckets)
    ∧ 0 ≤ st.current_vpin ∧ st.current_vpin ≤ 1

/-! ## `risk_manager.py` — data model -/

/-- `TradeRecord` dataclass (risk_manager.py lines 32-42). -/
structure TradeRecord where
  symbol : String
  side : String
  entry_price : ℚ
  exit_price : ℚ
  quantity : ℚ
  pnl : ℚ
  pnl_pct : ℚ
  timestamp : ℚ
deriving DecidableEq, Repr

/-- `Position` dataclass (risk_manager.py lines 45-53). -/
structure Position where
  symbol : String
  entry_price : ℚ
  quantity : ℚ
  entry_time : ℚ
  highest_price : ℚ
  trailing_active : Bool
deriving DecidableEq, Repr

/-- The mutable state of `RiskManager` (risk_manager.py lines 75-83); the
positions dict is an insertion-ordered association list with unique keys,
the trade history a `deque(maxlen=1000)`.  `_daily_pnl_history` is omitted:
it only feeds `_calc_daily_cvar`, which none of the modelled operations
read. -/
structure RiskState where
  positions : List (String × Position)
  trade_history : List TradeRecord
  daily_pnl : ℚ
  consecutive_losses : ℕ
  cooldown_until : ℚ
  daily_trades : List TradeRecord
deriving DecidableEq, Repr

/-- The state right after `RiskManager.__init__`. -/
def initRiskState : RiskState := ⟨[], [], 0, 0, 0, []⟩

/-- Python `dict.get(symbol)` on the positions dict. -/
def lookupPos (ps : List (String × Position)) (symbol : String) :
    Option Position :=
  (ps.find? (fun p => decide (p.1 = symbol))).map Prod.snd

/-- Python `dict[symbol] = pos`: replace in place when present, append
otherwise. -/
def setPos : List (String × Position) → String → Position →
    List (String × Position)
  | [], symbol, pos => [(symbol, pos)]
  | hd :: rest, symbol, pos =>
    if hd.1 = symbol then (symbol, pos) :: rest
    else hd :: setPos rest symbol pos

/-- Python `dict.pop(symbol, None)`: drop the entry when present. -/
def removePos (ps : List (String × Position)) (symbol : String) :
    List (String × Position) :=
  ps.eraseP (fun p => decide (p.1 = symbol))

/-- Append a `TradeRecord` to a `deque(maxlen=1000)`. -/
def pushRecord (l : List TradeRecord) (r : TradeRecord) : List TradeRecord :=
  let l' := l ++ [r]
  l'.drop (l'.length - 1000)

/-! ## `risk_manager.py` — operations -/

/-- Winning trades of the history: `[t for t in self._trade_history if
t.pnl > 0]` (risk_manager.py line 95). -/
def kellyWins (s : RiskState) : List TradeRecord :=
  s.trade_history.filter (fun t => decide (0 < t.pnl))

/-- Losing trades of the history: `[t for t in self._trade_history if
t.pnl <= 0]` (risk_manager.py line 96). -/
def kellyLosses (s : RiskState) : List TradeRecord :=
  s.trade_history.filter (fun t => decide (t.pnl ≤ 0))

/-- Embedding of `RiskManager._calc_kelly_fraction` (risk_manager.py lines
86-121).  `avg_loss` is hoisted in front of the `p`/`q` bindings so that
the `avg_loss == 0` early return is a plain conditional; the computed
value is unchanged. -/
def calc_kelly_fraction (s : RiskState) : ℚ :=
  if s.trade_history.length < KELLY_MIN_TRADES_FOR_CALC then KELLY_FRACTION
  else if (kellyWins s).isEmpty || (kellyLosses s).isEmpty then KELLY_FRACTION
  else if |listMean ((kellyLosses s).map TradeRecord.pnl_pct)| = 0 then
    KELLY_FRACTION
  else
    let p := ((kellyWins s).length : ℚ) / (s.trade_history.length : ℚ)
    let q := 1 - p
    let avg_win := listMean ((kellyWins s).map TradeRecord.pnl_pct)
    let avg_loss := |listMean ((kellyLosses s).map TradeRecord.pnl_pct)|
    let b := avg_win / avg_loss
    let kelly := (b * p - q) / b
    let fractional := kelly * KELLY_FRACTION
    max 0 (min fractional MAX_SINGLE_POSITION_RATIO)

/-- The denial / success cases of `RiskManager.can_enter`, standing for the
human-readable reason strings of risk_manager.py lines 156-185. -/
inductive EnterReason where
  | cooldown
  | cvarLimit
  | maxPositions
  | alreadyHeld
  | cashReserve
  | ok
deriving DecidableEq, Repr

/-- The cash the entry gate may invest: `available_cash - min_cash` with
`min_cash = MAX_TOTAL_CAPITAL_KRW * max(MIN_CASH_RESERVE_RATIO,
regime_cash_ratio)` (risk_manager.py lines 171-173). -/
def investable (available_cash regime_cash_ratio : ℚ) : ℚ :=
  available_cash -
    MAX_TOTAL_CAPITAL_KRW * max MIN_CASH_RESERVE_RATIO regime_cash_ratio

/-- Embedding of `RiskManager.can_enter` (risk_manager.py lines 143-185);
`now` stands for `ts_now()`. -/
def can_enter (s : RiskState) (now : ℚ) (symbol : String)
    (available_cash regime_cash_ratio : ℚ) : Bool × EnterReason × ℚ :=
  if now < s.cooldown_until then (false, .cooldown, 0)
  else if s.daily_pnl / MAX_TOTAL_CAPITAL_KRW ≤ DAILY_CVAR_LIMIT then
    (false, .cvarLimit, 0)
  else if MAX_CONCURRENT_POSITIONS ≤ s.positions.length then
    (false, .maxPositions, 0)
  else if (lookupPos s.positions symbol).isSome then (false, .alreadyHeld, 0)
  else if investable available_cash regime_cash_ratio ≤ 0 then
    (false, .cashReserve, 0)
  else
    let kelly_frac := calc_kelly_fraction s
    let max_amount :=
      min (investable available_cash regime_cash_ratio)
        (min (MAX_TOTAL_CAPITAL_KRW * kelly_frac)
          (MAX_TOTAL_CAPITAL_KRW * MAX_SINGLE_POSITION_RATIO))
    (true, .ok, max_amount)

/-- Embedding of `RiskManager.register_position` (risk_manager.py lines
188-202). -/
def register_position (s : RiskState) (now : ℚ) (symbol : String)
    (entry_price quantity : ℚ) : RiskState :=
  let pos : Position := ⟨symbol, entry_price, quantity, now, entry_price, false⟩
  { s with positions := setPos s.positions symbol pos }

/-- Embedding of `RiskManager.close_position` (risk_manager.py lines
204-251); the emergency notification is outside the state. -/
def close_position (s : RiskState) (now : ℚ) (symbol : String)
    (exit_price : ℚ) : Option TradeRecord × RiskState :=
  match lookupPos s.positions symbol with
  | none => (none, s)
  | some pos =>
    let pnl := (exit_price - pos.entry_price) * pos.quantity
    let pnl_pct := (exit_price - pos.entry_price) / pos.entry_price
    let record : TradeRecord :=
      ⟨symbol, "long", pos.entry_price, exit_price, pos.quantity,
        pnl, pnl_pct, now⟩
    let s1 : RiskState :=
      { s with
        positions := removePos s.positions symbol
        trade_history := pushRecord s.trade_history record
        daily_trades := s.daily_trades ++ [record]
        daily_pnl := s.daily_pnl + pnl }
    let s2 : RiskState :=
      if pnl < 0 then
        let losses := s1.consecutive_losses + 1
        if MAX_CONSECUTIVE_LOSSES ≤ losses then
          { s1 with consecutive_losses := losses
                    cooldown_until := now + COOLDOWN_SECONDS }
        else { s1 with consecutive_losses := losses }
      else { s1 with consecutive_losses := 0 }
    (some record, s2)

/-- Result of `RiskManager.update_price` (risk_manager.py lines 286-305):
the returned action dict. -/
inductive PriceAction where
  | stop_loss (pnl_pct stop_price : ℚ)
  | trailing_stop (pnl_pct highest trailing_stop : ℚ)
deriving DecidableEq, Repr

/-- Embedding of `RiskManager.update_price` (risk_manager.py lines
254-307).  The in-place mutations of the `Position` object
(`highest_price`, `trailing_active`) are made explicit as updates of the
positions map. -/
def update_price (s : RiskState) (symbol : String)
    (current_price realized_volatility trailing_mult : ℚ) :
    Option PriceAction × RiskState :=
  match lookupPos s.positions symbol with
  | none => (none, s)
  | some pos =>
    let pnl_pct := (current_price - pos.entry_price) / pos.entry_price
    let pos1 :=
      if pos.highest_price < current_price then
        { pos with highest_price := current_price }
      else pos
    let rv := max realized_volatility (1/200)
    let stop_loss_pct := STOP_LOSS_MULTIPLIER * rv
    let stop_price := pos.entry_price * (1 - stop_loss_pct)
    if current_price ≤ stop_price then
      (some (.stop_loss pnl_pct stop_price),
        { s with positions := setPos s.positions symbol pos1 })
    else
      let pos2 :=
        if TRAILING_ACTIVATION_PCT ≤ pnl_pct then
          { pos1 with trailing_active := true }
        else pos1
      let s2 : RiskState := { s with positions := setPos s.positions symbol pos2 }
      if pos2.trailing_active then
        let trailing_offset := TRAILING_OFFSET_MULTIPLIER * rv * trailing_mult
        let trailing_stop := pos2.highest_price * (1 - trailing_offset)
        if current_price ≤ trailing_stop then
          (some (.trailing_stop pnl_pct pos2.highest_price trailing_stop), s2)
        else (none, s2)
      else (none, s2)

/-! ## Concrete states used by the witnesses -/

/-- A winning closed trade: +2% on one unit, absolute pnl +2. -/
def kellyWinRecord : TradeRecord := ⟨"BTC", "long", 100, 102, 1, 2, 1/50, 0⟩

/-- A losing closed trade: −1% on one unit, absolute pnl −1. -/
def kellyLossRecord : TradeRecord := ⟨"BTC", "long", 100, 99, 1, -1, -(1/100), 0⟩

/-- Risk state with exactly 20 closed trades: 10 wins of +2% and 10 losses
of −1%. -/
def kellyExampleState : RiskState :=
  ⟨[], [kellyWinRecord, kellyWinRecord, kellyWinRecord, kellyWinRecord,
    kellyWinRecord, kellyWinRecord, kellyWinRecord, kellyWinRecord,
    kellyWinRecord, kellyWinRecord, kellyLossRecord, kellyLossRecord,
    kellyLossRecord, kellyLossRecord, kellyLossRecord, kellyLossRecord,
    kellyLossRecord, kellyLossRecord, kellyLossRecord, kellyLossRecord],
    0, 0, 0, []⟩

/-- Risk state holding one position: entered "BTC" at 100, highest seen
102, trailing already active (the state after the 102 tick of the spec's
trailing-stop scenario). -/
def trailingExampleState : RiskState :=
  ⟨[("BTC", ⟨"BTC", 100, 1, 0, 102, true⟩)], [], 0, 0, 0, []⟩

/-- Risk state with two consecutive losses already recorded and one open
position "C" entered at 100. -/
def breakerExampleState : RiskState :=
  ⟨[("C", ⟨"C", 100, 1, 2, 100, false⟩)], [], 0, 2, 0, []⟩

/-! ## Theorems -/

/-- C9 counterexample: the claim says that at `RV` exactly `0.05`, `0.03`
or `0.01` the `≥`-branch fires (so `get_signal 0.05 = -1.0`), but the code
compares with strict `>`, so `get_signal 0.05 = -0.5`, `get_signal 0.03 = 0`
and `get_signal 0.01 = 0.5`. -/
theorem get_signal_boundary_counterexample :
    get_signal (1/20) = -(1/2) ∧ ¬ get_signal (1/20) = -1
      ∧ get_signal (3/100) = 0 ∧ ¬ get_signal (3/100) = -(1/2)
      ∧ get_signal (1/100) = 1/2 ∧ ¬ get_signal (1/100) = 0 := by
  norm_num [get_signal]

/-- C9 (amended): `VolatilityModel.get_signal` is the step function of the
current realized volatility with strict thresholds: `RV > 0.05 → −1.0`;
`RV > 0.03 → −0.5`; `RV > 0.01 → 0`; otherwise `+0.5` — at an `RV` exactly
equal to a threshold the next lower branch is returned. -/
theorem get_signal_step (rv : ℚ) :
    (1/20 < rv → get_signal rv = -1)
      ∧ (3/100 < rv → rv ≤ 1/20 → get_signal rv = -(1/2))
      ∧ (1/100 < rv → rv ≤ 3/100 → get_signal rv = 0)
      ∧ (rv ≤ 1/100 → get_signal rv = 1/2) := by
  unfold get_signal
  refine ⟨fun h1 => ?_, fun h1 h2 => ?_, fun h1 h2 => ?_, fun h1 => ?_⟩ <;>
    split_ifs <;> first | rfl | linarith

/-- C9 witness: the amended step function evaluated at concrete volatilities
in each band. -/
theorem get_signal_step_witness :
    get_signal (1/10) = -1 ∧ get_signal (1/25) = -(1/2)
      ∧ get_signal (1/50) = 0 ∧ get_signal (1/200) = 1/2 :=
  ⟨(get_signal_step (1/10)).1 (by norm_num),
   (get_signal_step (1/25)).2.1 (by norm_num) (by norm_num),
   (get_signal_step (1/50)).2.2.1 (by norm_num) (by norm_num),
   (get_signal_step (1/200)).2.2.2 (by norm_num)⟩

/-- C10: `RiskManager.close_position` on a symbol with no held position
returns `None` and leaves the whole risk state (positions, trade history,
daily trades, daily pnl, consecutive losses, cooldown) unchanged. -/
theorem close_position_no_position (s : RiskState) (now : ℚ) (symbol : String)
    (exit_price : ℚ) (h : lookupPos s.positions symbol = none) :
    close_position s now symbol exit_price = (none, s) := by
  unfold close_position
  rw [h]

/-- C10 witness: closing an unheld symbol on the fresh state is a no-op. -/
theorem close_position_no_position_witness :
    close_position initRiskState 0 "BTC" 100 = (none, initRiskState) :=
  close_position_no_position initRiskState 0 "BTC" 100 rfl

/-- C4 counterexample: on inputs `obi=1, vpin=0, momentum=0.5, regime=1,
sentiment=0, funding=0, volatility=0` the code rescales the five technical
weights by `1 + 0.20/0.80 = 1.25` (the active weight sum is `0.80`, not the
`0.65` of the spec), giving score `0.65625`, not `≈ 0.738`; the score is
below `0.7`, so the action is `"buy"`, not `"strong_buy"`. -/
theorem ensemble_fusion_counterexample :
    (compute_final_score 1 0 (1/2) 1 0 0 0).score = 21/32
      ∧ ¬ (7/10 ≤ (compute_final_score 1 0 (1/2) 1 0 0 0).score)
      ∧ (compute_final_score 1 0 (1/2) 1 0 0 0).action = "buy"
      ∧ ¬ (compute_final_score 1 0 (1/2) 1 0 0 0).action = "strong_buy" := by
  norm_num [compute_final_score, adjustedWeights, ENSEMBLE_WEIGHTS, clip,
    min_def, max_def]
  decide

/-- C4 (amended): for inputs `obi=1, vpin=0, momentum=0.5, regime=1,
sentiment=0, funding=0, volatility=0`, `compute_final_score` rescales the
weights across the active set `{obi, vpin, momentum, regime, volatility}`
(sum `0.80`, scale `1 + 0.20/0.80 = 1.25`) and produces score
`0.65625`, which is `≥ 0.5` and `< 0.7` and therefore action `"buy"`. -/
theorem ensemble_fusion_example :
    adjustedWeights 0 0 =
      ⟨3/10 * (5/4), 3/20 * (5/4), 3/20 * (5/4), 3/20 * (5/4), 0, 0,
        1/20 * (5/4)⟩
      ∧ (compute_final_score 1 0 (1/2) 1 0 0 0).score = 21/32
      ∧ 1/2 ≤ (compute_final_score 1 0 (1/2) 1 0 0 0).score
      ∧ (compute_final_score 1 0 (1/2) 1 0 0 0).score < 7/10
      ∧ (compute_final_score 1 0 (1/2) 1 0 0 0).action = "buy" := by
  norm_num [compute_final_score, adjustedWeights, ENSEMBLE_WEIGHTS, clip,
    min_def, max_def]

/-- C5: whenever the sentiment and/or the funding input is exactly 0, its
weight is zeroed, the five technical weights are each multiplied by
`scale = 1 + missing_weight / active_weight_sum` (the active technical
weight sum being `0.80`), a still-present sentiment/funding weight is kept
as is, and the weights applied to the signals sum to exactly 1 (hence to
1.0 within 1e-9) — for every combination of sentiment and funding being
absent. -/
theorem ensemble_weights_renormalize (sent fund : ℚ) (h : sent = 0 ∨ fund = 0) :
    (adjustedWeights sent fund).obi = 3/10 * ensembleScale sent fund
      ∧ (adjustedWeights sent fund).vpin = 3/20 * ensembleScale sent fund
      ∧ (adjustedWeights sent fund).momentum = 3/20 * ensembleScale sent fund
      ∧ (adjustedWeights sent fund).regime = 3/20 * ensembleScale sent fund
      ∧ (adjustedWeights sent fund).volatility = 1/20 * ensembleScale sent fund
      ∧ (adjustedWeights sent fund).sentiment = (if sent = 0 then 0 else 1/10)
      ∧ (adjustedWeights sent fund).funding = (if fund = 0 then 0 else 1/10)
      ∧ (adjustedWeights sent fund).obi + (adjustedWeights sent fund).vpin
          + (adjustedWeights sent fund).momentum
          + (adjustedWeights sent fund).regime
          + (adjustedWeights sent fund).sentiment
          + (adjustedWeights sent fund).funding
          + (adjustedWeights sent fund).volatility = 1 := by
  rcases eq_or_ne sent 0 with hs | hs <;> rcases eq_or_ne fund 0 with hf | hf
  · norm_num [adjustedWeights, ensembleScale, ENSEMBLE_WEIGHTS, hs, hf]
  · norm_num [adjustedWeights, ensembleScale, ENSEMBLE_WEIGHTS, hs, hf]
  · norm_num [adjustedWeights, ensembleScale, ENSEMBLE_WEIGHTS, hs, hf]
  · exact absurd h (by simp [hs, hf])

/-- C5 witness: sentiment absent, funding present. -/
theorem ensemble_weights_renormalize_witness :
    (adjustedWeights 0 1).obi + (adjustedWeights 0 1).vpin
        + (adjustedWeights 0 1).momentum + (adjustedWeights 0 1).regime
        + (adjustedWeights 0 1).sentiment + (adjustedWeights 0 1).funding
        + (adjustedWeights 0 1).volatility = 1 := by
  have h := ensemble_weights_renormalize 0 1 (Or.inl rfl)
  exact h.2.2.2.2.2.2.2

/-- Inserting a fresh key into the positions dict grows it by one entry. -/
lemma setPos_length_of_lookup_none (ps : List (String × Position))
    (symbol : String) (pos : Position) (h : lookupPos ps symbol = none) :
    (setPos ps symbol pos).length = ps.length + 1 := by
  induction ps with
  | nil => rfl
  | cons hd tl ih =>
    by_cases hh : hd.1 = symbol
    · exfalso
      simp [lookupPos, List.find?_cons, hh] at h
    · simp only [lookupPos, List.find?_cons, decide_eq_true_eq, hh,
        if_false, ite_false] at h
      simp [setPos, hh, ih h]

/-- C6: with fewer than `KELLY_MIN_TRADES_FOR_CALC = 20` recorded trades the
Kelly fraction is the default `KELLY_FRACTION = 0.25`; with at least 20
trades containing both wins and losses (and a nonzero mean loss) it is
`clamp(((b·p − q)/b)·0.25, 0, 0.20)` with `p = wins/N`, `q = 1 − p`,
`b = mean(win pnl_pct) / |mean(loss pnl_pct)|`. -/
theorem kelly_fraction_spec (s : RiskState) :
    (s.trade_history.length < KELLY_MIN_TRADES_FOR_CALC →
        calc_kelly_fraction s = KELLY_FRACTION)
      ∧ (KELLY_MIN_TRADES_FOR_CALC ≤ s.trade_history.length →
          ¬ kellyWins s = [] → ¬ kellyLosses s = [] →
          ¬ listMean ((kellyLosses s).map TradeRecord.pnl_pct) = 0 →
          calc_kelly_fraction s =
            max 0 (min
              ((listMean ((kellyWins s).map TradeRecord.pnl_pct) /
                    |listMean ((kellyLosses s).map TradeRecord.pnl_pct)| *
                    (((kellyWins s).length : ℚ) / (s.trade_history.length : ℚ))
                  - (1 - ((kellyWins s).length : ℚ) /
                      (s.trade_history.length : ℚ))) /
                  (listMean ((kellyWins s).map TradeRecord.pnl_pct) /
                    |listMean ((kellyLosses s).map TradeRecord.pnl_pct)|) *
                  KELLY_FRACTION)
              MAX_SINGLE_POSITION_RATIO)) := by
  constructor
  · intro h
    unfold calc_kelly_fraction
    rw [if_pos h]
  · intro hN hw hl hm
    have h1 : ¬ s.trade_history.length < KELLY_MIN_TRADES_FOR_CALC :=
      not_lt.mpr hN
    have h2 : ¬ ((kellyWins s).isEmpty || (kellyLosses s).isEmpty) = true := by
      simp [List.isEmpty_iff, hw, hl]
    have h3 : ¬ |listMean ((kellyLosses s).map TradeRecord.pnl_pct)| = 0 :=
      fun hc => hm (abs_eq_zero.mp hc)
    unfold calc_kelly_fraction
    rw [if_neg h1, if_neg h2, if_neg h3]

/-- C6 witness: the 10-wins-of-+2%, 10-losses-of-−1% history yields exactly
0.0625, and a fresh (trade-free) state yields the 0.25 default. -/
theorem kelly_fraction_spec_witness :
    calc_kelly_fraction kellyExampleState = 1/16
      ∧ calc_kelly_fraction initRiskState = KELLY_FRACTION := by
  constructor
  · have hw : ¬ kellyWins kellyExampleState = [] := by
      norm_num [kellyWins, kellyExampleState, kellyWinRecord, kellyLossRecord,
        List.filter_cons]
      exact List.cons_ne_nil _ _
    have hl : ¬ kellyLosses kellyExampleState = [] := by
      norm_num [kellyLosses, kellyExampleState, kellyWinRecord,
        kellyLossRecord, List.filter_cons]
      exact List.cons_ne_nil _ _
    have hm : ¬ listMean ((kellyLosses kellyExampleState).map
        TradeRecord.pnl_pct) = 0 := by
      norm_num [kellyLosses, kellyExampleState, kellyWinRecord,
        kellyLossRecord, List.filter_cons, listMean]
    have h := (kelly_fraction_spec kellyExampleState).2 (by norm_num
      [kellyExampleState, KELLY_MIN_TRADES_FOR_CALC]) hw hl hm
    rw [h]
    norm_num [kellyWins, kellyLosses, kellyExampleState, kellyWinRecord,
      kellyLossRecord, List.filter_cons, listMean, KELLY_FRACTION,
      MAX_SINGLE_POSITION_RATIO, min_def, max_def, abs_of_pos, abs_of_nonneg]
  · exact (kelly_fraction_spec initRiskState).1 (by norm_num [initRiskState,
      KELLY_MIN_TRADES_FOR_CALC])

/-- C7: the OBI returned by `update_orderbook` equals
`(ΣV_bid − ΣV_ask)/(ΣV_bid + ΣV_ask)` over the top
`min(10, len(bids), len(asks))` levels, is 0 when either book is empty or
the summed volume is zero, and (volumes being nonnegative) always lies in
`[−1, 1]`. -/
theorem obi_spec (bids asks : List BookLevel)
    (hb : ∀ l ∈ bids, 0 ≤ l.quantity) (ha : ∀ l ∈ asks, 0 ≤ l.quantity) :
    (¬ bids = [] → ¬ asks = [] → ¬ totalBid bids asks + totalAsk bids asks = 0 →
        update_orderbook_obi bids asks =
          (totalBid bids asks - totalAsk bids asks)
            / (totalBid bids asks + totalAsk bids asks))
      ∧ (bids = [] ∨ asks = [] ∨ totalBid bids asks + totalAsk bids asks = 0 →
          update_orderbook_obi bids asks = 0)
      ∧ -1 ≤ update_orderbook_obi bids asks
      ∧ update_orderbook_obi bids asks ≤ 1 := by
  have hbid : 0 ≤ totalBid bids asks := by
    refine List.sum_nonneg ?_
    intro x hx
    obtain ⟨l, hl, rfl⟩ := List.mem_map.mp hx
    exact hb l (List.mem_of_mem_take hl)
  have hask : 0 ≤ totalAsk bids asks := by
    refine List.sum_nonneg ?_
    intro x hx
    obtain ⟨l, hl, rfl⟩ := List.mem_map.mp hx
    exact ha l (List.mem_of_mem_take hl)
  by_cases hd : obiDepth bids asks = 0
  · have hz : update_orderbook_obi bids asks = 0 := by
      unfold update_orderbook_obi
      rw [if_pos hd]
    refine ⟨fun hbne hane _ => ?_, fun _ => hz, by rw [hz]; norm_num,
      by rw [hz]; norm_num⟩
    exfalso
    have h0 : bids.length = 0 ∨ asks.length = 0 := by
      simp only [obiDepth, OBI_DEPTH_LEVELS] at hd
      omega
    rcases h0 with h0 | h0
    · exact hbne (List.length_eq_zero.mp h0)
    · exact hane (List.length_eq_zero.mp h0)
  · by_cases ht : totalBid bids asks + totalAsk bids asks = 0
    · have hz : update_orderbook_obi bids asks = 0 := by
        unfold update_orderbook_obi
        rw [if_neg hd, if_pos ht]
      exact ⟨fun _ _ hcon => absurd ht hcon, fun _ => hz,
        by rw [hz]; norm_num, by rw [hz]; norm_num⟩
    · have hval : update_orderbook_obi bids asks =
          (totalBid bids asks - totalAsk bids asks)
            / (totalBid bids asks + totalAsk bids asks) := by
        unfold update_orderbook_obi
        rw [if_neg hd, if_neg ht]
      have htpos : 0 < totalBid bids asks + totalAsk bids asks :=
        lt_of_le_of_ne (by linarith) (Ne.symm ht)
      refine ⟨fun _ _ _ => hval, fun hc => ?_, ?_, ?_⟩
      · rcases hc with hc | hc | hc
        · exact absurd hd (by simp [obiDepth, hc])
        · exact absurd hd (by simp [obiDepth, hc])
        · exact absurd hc ht
      · rw [hval]
        rw [le_div_iff₀ htpos]
        linarith
      · rw [hval]
        rw [div_le_one htpos]
        linarith

/-- C7 witness: the book `bids=[{100,5}], asks=[{101,5}]` gives OBI 0; after
`asks=[{101,1}]` the OBI is `(5−1)/6 = 2/3 ≈ 0.667`, inside `[−1,1]`. -/
theorem obi_spec_witness :
    update_orderbook_obi [⟨100, 5⟩] [⟨101, 5⟩] = 0
      ∧ update_orderbook_obi [⟨100, 5⟩] [⟨101, 1⟩] = 2/3
      ∧ -1 ≤ update_orderbook_obi [⟨100, 5⟩] [⟨101, 1⟩]
      ∧ update_orderbook_obi [⟨100, 5⟩] [⟨101, 1⟩] ≤ 1 := by
  have hq1 : ∀ l ∈ [(⟨100, 5⟩ : BookLevel)], 0 ≤ l.quantity := by
    intro l hl
    rw [List.mem_singleton] at hl
    subst hl
    norm_num
  have hq2 : ∀ l ∈ [(⟨101, 5⟩ : BookLevel)], 0 ≤ l.quantity := by
    intro l hl
    rw [List.mem_singleton] at hl
    subst hl
    norm_num
  have hq3 : ∀ l ∈ [(⟨101, 1⟩ : BookLevel)], 0 ≤ l.quantity := by
    intro l hl
    rw [List.mem_singleton] at hl
    subst hl
    norm_num
  have h := obi_spec [⟨100, 5⟩] [⟨101, 5⟩] hq1 hq2
  have h2 := obi_spec [⟨100, 5⟩] [⟨101, 1⟩] hq1 hq3
  refine ⟨?_, ?_, h2.2.2.1, h2.2.2.2⟩
  · rw [h.1 (by norm_num) (by norm_num) (by norm_num [totalBid, totalAsk,
      obiDepth, OBI_DEPTH_LEVELS, List.take, min_def])]
    norm_num [totalBid, totalAsk, obiDepth, OBI_DEPTH_LEVELS, List.take,
      min_def]
  · rw [h2.1 (by norm_num) (by norm_num) (by norm_num [totalBid, totalAsk,
      obiDepth, OBI_DEPTH_LEVELS, List.take, min_def])]
    norm_num [totalBid, totalAsk, obiDepth, OBI_DEPTH_LEVELS, List.take,
      min_def]

/-- C1: whenever `can_enter` returns `(true, _, A)`, fewer than
`MAX_CONCURRENT_POSITIONS = 3` positions are held and the symbol is not
among them, and `A = min(available_cash − cap·max(0.20, regime_cash_ratio),
cap·kelly_fraction, cap·MAX_SINGLE_POSITION_RATIO)`; hence
`A ≤ cap·0.20`, registering one position keeps the count `≤ 3`, and an
order sized `≤ A` has notional `≤ cap·MAX_SINGLE_POSITION_RATIO`. -/
theorem can_enter_spec (s : RiskState) (now : ℚ) (symbol : String)
    (cash rcr A : ℚ) (r : EnterReason)
    (h : can_enter s now symbol cash rcr = (true, r, A)) :
    s.positions.length < MAX_CONCURRENT_POSITIONS
      ∧ lookupPos s.positions symbol = none
      ∧ A = min (investable cash rcr)
          (min (MAX_TOTAL_CAPITAL_KRW * calc_kelly_fraction s)
            (MAX_TOTAL_CAPITAL_KRW * MAX_SINGLE_POSITION_RATIO))
      ∧ A ≤ MAX_TOTAL_CAPITAL_KRW * MAX_SINGLE_POSITION_RATIO
      ∧ (∀ t price qty,
          (register_position s t symbol price qty).positions.length
            ≤ MAX_CONCURRENT_POSITIONS)
      ∧ (∀ price qty, price * qty ≤ A →
          price * qty ≤ MAX_TOTAL_CAPITAL_KRW * MAX_SINGLE_POSITION_RATIO) := by
  unfold can_enter at h
  split_ifs at h with h1 h2 h3 h4 h5
  · exact absurd h (by simp)
  · exact absurd h (by simp)
  · exact absurd h (by simp)
  · exact absurd h (by simp)
  · exact absurd h (by simp)
  · simp only [Prod.mk.injEq] at h
    obtain ⟨-, -, hA⟩ := h
    have hcount : s.positions.length < MAX_CONCURRENT_POSITIONS :=
      not_le.mp h3
    have hnone : lookupPos s.positions symbol = none :=
      Option.not_isSome_iff_eq_none.mp h4
    have hAle : A ≤ MAX_TOTAL_CAPITAL_KRW * MAX_SINGLE_POSITION_RATIO := by
      rw [← hA]
      exact le_trans (min_le_right _ _) (min_le_right _ _)
    refine ⟨hcount, hnone, hA.symm, hAle, fun t price qty => ?_,
      fun price qty hle => le_trans hle hAle⟩
    unfold register_position
    simp only
    rw [setPos_length_of_lookup_none s.positions symbol _ hnone]
    omega

/-- C1 witness: on the fresh state with 20M cash and a 0.20 regime cash
ratio, `can_enter` allows entry with `A = 10M = cap·0.20`; no position is
held, the symbol is free, and the amount respects the single-position
cap. -/
theorem can_enter_spec_witness :
    initRiskState.positions.length < MAX_CONCURRENT_POSITIONS
      ∧ lookupPos initRiskState.positions "BTC" = none
      ∧ (10000000 : ℚ) ≤ MAX_TOTAL_CAPITAL_KRW * MAX_SINGLE_POSITION_RATIO := by
  have h := can_enter_spec initRiskState 0 "BTC" 20000000 (1/5) 10000000
    EnterReason.ok (by
      norm_num [can_enter, investable, calc_kelly_fraction, initRiskState,
        lookupPos, KELLY_FRACTION, KELLY_MIN_TRADES_FOR_CALC,
        MAX_TOTAL_CAPITAL_KRW, MIN_CASH_RESERVE_RATIO,
        MAX_SINGLE_POSITION_RATIO, MAX_CONCURRENT_POSITIONS,
        DAILY_CVAR_LIMIT, min_def, max_def])
  exact ⟨h.1, h.2.1, h.2.2.2.1⟩

set_option maxRecDepth 8000 in
/-- C2: the circuit-breaker state machine — a losing close (pnl < 0) of a
held position increments `consecutive_losses` and sets
`cooldown_until = now + COOLDOWN_SECONDS` exactly when the new counter
reaches `MAX_CONSECUTIVE_LOSSES = 3` (i.e. is `≥ 3`); a non-negative close
resets the counter to 0 and leaves the cooldown untouched; and while
`now < cooldown_until` every `can_enter` call — on any symbol, held or not,
in any state — is denied with the cooldown reason. -/
theorem circuit_breaker_spec (s : RiskState) (now : ℚ) (symbol : String)
    (exit_price : ℚ) :
    (∀ pos, lookupPos s.positions symbol = some pos →
        ((exit_price - pos.entry_price) * pos.quantity < 0 →
            (close_position s now symbol exit_price).2.consecutive_losses
                = s.consecutive_losses + 1
              ∧ (MAX_CONSECUTIVE_LOSSES ≤ s.consecutive_losses + 1 →
                  (close_position s now symbol exit_price).2.cooldown_until
                    = now + COOLDOWN_SECONDS)
              ∧ (s.consecutive_losses + 1 < MAX_CONSECUTIVE_LOSSES →
                  (close_position s now symbol exit_price).2.cooldown_until
                    = s.cooldown_until))
          ∧ (0 ≤ (exit_price - pos.entry_price) * pos.quantity →
              (close_position s now symbol exit_price).2.consecutive_losses = 0
                ∧ (close_position s now symbol exit_price).2.cooldown_until
                    = s.cooldown_until))
      ∧ (∀ t (sym : String) cash rcr, t < s.cooldown_until →
          can_enter s t sym cash rcr = (false, EnterReason.cooldown, 0)) := by
  refine ⟨fun pos hpos => ⟨fun hneg => ?_, fun hnn => ?_⟩,
    fun t sym cash rcr ht => ?_⟩
  · unfold close_position
    rw [hpos]
    simp only
    rw [if_pos hneg]
    split_ifs with hc
    · exact ⟨rfl, fun _ => rfl, fun hlt => absurd hc (by omega)⟩
    · exact ⟨rfl, fun hle => absurd hle hc, fun _ => rfl⟩
  · unfold close_position
    rw [hpos]
    simp only
    rw [if_neg (not_lt.mpr hnn)]
    exact ⟨rfl, rfl⟩
  · unfold can_enter
    rw [if_pos ht]

/-- C2 witness: a third consecutive losing close of "C" at t = 2 pushes the
counter to 3 and arms the cooldown until 1802 = 2 + 1800; in the resulting
state the position is gone, yet entry into the now-unheld "C" at t = 100 is
still denied with the cooldown reason. -/
theorem circuit_breaker_spec_witness :
    (close_position breakerExampleState 2 "C" 99).2.consecutive_losses = 3
      ∧ (close_position breakerExampleState 2 "C" 99).2.cooldown_until = 1802
      ∧ lookupPos (close_position breakerExampleState 2 "C" 99).2.positions
          "C" = none
      ∧ can_enter (close_position breakerExampleState 2 "C" 99).2 100 "C"
          20000000 (1/5) = (false, EnterReason.cooldown, 0) := by
  have h := circuit_breaker_spec breakerExampleState 2 "C" 99
  have h1 := (h.1 ⟨"C", 100, 1, 2, 100, false⟩ rfl).1 (by norm_num)
  have hcool : (close_position breakerExampleState 2 "C" 99).2.cooldown_until
      = 1802 := by
    rw [h1.2.1 (by norm_num [breakerExampleState, MAX_CONSECUTIVE_LOSSES])]
    norm_num [COOLDOWN_SECONDS]
  have h2 := circuit_breaker_spec
    (close_position breakerExampleState 2 "C" 99).2 0 "C" 0
  refine ⟨by rw [h1.1]; norm_num [breakerExampleState], hcool, ?_,
    h2.2 100 "C" 20000000 (1/5) (by rw [hcool]; norm_num)⟩
  norm_num [close_position, breakerExampleState, lookupPos, removePos,
    pushRecord, List.find?_cons, MAX_CONSECUTIVE_LOSSES]

/-- The in-place `pos.highest_price = current_price` mutation guarded by
`current_price > pos.highest_price` is the max of the two. -/
lemma highest_update_eq (pos : Position) (current : ℚ) :
    (if pos.highest_price < current then { pos with highest_price := current }
      else pos) = { pos with highest_price := max pos.highest_price current } := by
  split_ifs with h
  · rw [max_eq_right (le_of_lt h)]
  · rw [max_eq_left (not_lt.mp h)]

/-- The in-place `pos.trailing_active = True` mutation guarded by the
activation test leaves `trailing_active` true once set. -/
lemma trailing_update_eq (pos : Position) (c : Prop) [Decidable c] :
    (if c then { pos with trailing_active := true } else pos)
      = { pos with trailing_active := pos.trailing_active || decide c } := by
  split_ifs with h
  · simp [h]
  · simp [h]

/-- Looking up the key just written into the positions dict returns the
written position. -/
lemma lookupPos_setPos (ps : List (String × Position)) (symbol : String)
    (pos : Position) :
    lookupPos (setPos ps symbol pos) symbol = some pos := by
  induction ps with
  | nil => simp [setPos, lookupPos]
  | cons hd tl ih =>
    by_cases hh : hd.1 = symbol
    · simp [setPos, hh, lookupPos, List.find?_cons]
    · simp only [setPos, hh, ite_false, if_false]
      simpa [lookupPos, List.find?_cons, hh] using ih

/-- C3: `update_price` on a held position, with `rv' = max(rv, 0.005)`:
if `current ≤ entry·(1 − 2.0·rv')` the result is the stop-loss action;
otherwise the stored `highest_price` becomes `max(highest_price, current)`,
`trailing_active` becomes (and stays) true once
`pnl_pct ≥ TRAILING_ACTIVATION_PCT = 0.015`, and if trailing is active and
`current ≤ highest·(1 − 1.5·rv'·m)` the result is the trailing-stop action,
else no action. -/
theorem update_price_spec (s : RiskState) (symbol : String)
    (current rv m : ℚ) (pos : Position)
    (hpos : lookupPos s.positions symbol = some pos) :
    (current ≤ pos.entry_price * (1 - STOP_LOSS_MULTIPLIER * max rv (1/200)) →
        (update_price s symbol current rv m).1
          = some (PriceAction.stop_loss
              ((current - pos.entry_price) / pos.entry_price)
              (pos.entry_price * (1 - STOP_LOSS_MULTIPLIER * max rv (1/200)))))
      ∧ (pos.entry_price * (1 - STOP_LOSS_MULTIPLIER * max rv (1/200)) < current →
          lookupPos (update_price s symbol current rv m).2.positions symbol
            = some { pos with
                highest_price := max pos.highest_price current,
                trailing_active := pos.trailing_active
                  || decide (TRAILING_ACTIVATION_PCT
                      ≤ (current - pos.entry_price) / pos.entry_price) }
          ∧ ((pos.trailing_active || decide (TRAILING_ACTIVATION_PCT
                ≤ (current - pos.entry_price) / pos.entry_price)) = true →
              current ≤ max pos.highest_price current
                  * (1 - TRAILING_OFFSET_MULTIPLIER * max rv (1/200) * m) →
              (update_price s symbol current rv m).1
                = some (PriceAction.trailing_stop
                    ((current - pos.entry_price) / pos.entry_price)
                    (max pos.highest_price current)
                    (max pos.highest_price current
                      * (1 - TRAILING_OFFSET_MULTIPLIER * max rv (1/200) * m))))
          ∧ ((pos.trailing_active || decide (TRAILING_ACTIVATION_PCT
                ≤ (current - pos.entry_price) / pos.entry_price)) = true →
              max pos.highest_price current
                  * (1 - TRAILING_OFFSET_MULTIPLIER * max rv (1/200) * m) < current →
              (update_price s symbol current rv m).1 = none)
          ∧ ((pos.trailing_active || decide (TRAILING_ACTIVATION_PCT
                ≤ (current - pos.entry_price) / pos.entry_price)) = false →
              (update_price s symbol current rv m).1 = none)) := by
  refine ⟨fun hstop => ?_, fun hnostop => ?_⟩
  · unfold update_price
    rw [hpos]
    simp only
    rw [if_pos hstop]
  · unfold update_price
    rw [hpos]
    simp only
    rw [if_neg (not_le.mpr hnostop), highest_update_eq, trailing_update_eq]
    simp only
    split_ifs with h1 h2
    · exact ⟨by rw [lookupPos_setPos], fun _ _ => rfl,
        fun _ hts => absurd h2 (not_le.mpr hts),
        fun hfalse => absurd h1 (by simp [hfalse])⟩
    · exact ⟨by rw [lookupPos_setPos], fun _ hts => absurd hts h2,
        fun _ _ => rfl, fun hfalse => absurd h1 (by simp [hfalse])⟩
    · exact ⟨by rw [lookupPos_setPos], fun hact _ => absurd hact h1,
        fun hact _ => absurd hact h1, fun _ => rfl⟩

/-- C3 witness: the spec's trailing-stop scenario — position entered at 100,
highest risen to 102, trailing already activated; with rv = 0.01 and
m = 1.5 the offset is 0.0225, the trailing stop 102·0.9775 = 99.705, and the
price 99.7 triggers the trailing-stop action. -/
theorem update_price_spec_witness :
    (update_price trailingExampleState "BTC" (997/10) (1/100) (3/2)).1
      = some (PriceAction.trailing_stop (-(3/1000)) 102 (19941/200)) := by
  have h := (update_price_spec trailingExampleState "BTC" (997/10) (1/100)
    (3/2) ⟨"BTC", 100, 1, 0, 102, true⟩ rfl).2
    (by norm_num [max_def, STOP_LOSS_MULTIPLIER])
  rw [h.2.1 (by norm_num) (by norm_num [max_def, TRAILING_OFFSET_MULTIPLIER])]
  norm_num [max_def, TRAILING_OFFSET_MULTIPLIER]

/-! ## VPIN invariant machinery (C8) -/

lemma mem_le_maxD {l : List ℚ} {x : ℚ} (hx : x ∈ l) : x ≤ maxD l := by
  induction l with
  | nil => cases hx
  | cons a t ih =>
    rcases List.mem_cons.mp hx with rfl | hx'
    · exact le_max_left _ _
    · exact le_trans (ih hx') (le_max_right _ _)

lemma maxD_nonneg {l : List ℚ} (h : ∀ x ∈ l, 0 ≤ x) : 0 ≤ maxD l := by
  cases l with
  | nil => norm_num [maxD]
  | cons a t =>
    exact le_trans (h a (List.mem_cons_self a t)) (le_max_left _ _)

lemma listMean_nonneg {l : List ℚ} (h : ∀ x ∈ l, 0 ≤ x) : 0 ≤ listMean l :=
  div_nonneg (List.sum_nonneg h) (by positivity)

lemma listMean_le_maxD {l : List ℚ} (hne : ¬ l = []) :
    listMean l ≤ maxD l := by
  have hlen : 0 < (l.length : ℚ) := by
    have := List.length_pos.mpr hne
    exact_mod_cast this
  rw [listMean, div_le_iff₀ hlen]
  have := List.sum_le_card_nsmul l (maxD l) (fun x hx => mem_le_maxD hx)
  rw [nsmul_eq_mul] at this
  linarith

/-- The guarded division stored by the code equals the spec's `mean/max`
formula (rational division by zero supplying the all-zero case). -/
lemma code_vpin_eq (vb : List ℚ) (h : ∀ x ∈ vb, 0 ≤ x) :
    (if 0 < maxD (lastN VPIN_NUM_BUCKETS vb) then
        listMean (lastN VPIN_NUM_BUCKETS vb) / maxD (lastN VPIN_NUM_BUCKETS vb)
      else 0) = vpinValue vb := by
  split_ifs with h0
  · rfl
  · cases hrec : lastN VPIN_NUM_BUCKETS vb with
    | nil =>
      exfalso
      rw [hrec] at h0
      exact h0 (by norm_num [maxD])
    | cons a t =>
      have hsub : ∀ x ∈ lastN VPIN_NUM_BUCKETS vb, 0 ≤ x :=
        fun x hx => h x (List.drop_subset _ _ hx)
      have hz : ∀ x ∈ lastN VPIN_NUM_BUCKETS vb, x = 0 := fun x hx =>
        le_antisymm (le_trans (mem_le_maxD hx) (not_lt.mp h0)) (hsub x hx)
      have hsum : (lastN VPIN_NUM_BUCKETS vb).sum = 0 := List.sum_eq_zero hz
      unfold vpinValue listMean
      rw [hsum]
      simp [zero_div]

lemma vpinValue_nonneg {vb : List ℚ} (h : ∀ x ∈ vb, 0 ≤ x) :
    0 ≤ vpinValue vb := by
  have hsub : ∀ x ∈ lastN VPIN_NUM_BUCKETS vb, 0 ≤ x :=
    fun x hx => h x (List.drop_subset _ _ hx)
  exact div_nonneg (listMean_nonneg hsub) (maxD_nonneg hsub)

lemma vpinValue_le_one {vb : List ℚ} (h : ∀ x ∈ vb, 0 ≤ x) :
    vpinValue vb ≤ 1 := by
  have hsub : ∀ x ∈ lastN VPIN_NUM_BUCKETS vb, 0 ≤ x :=
    fun x hx => h x (List.drop_subset _ _ hx)
  by_cases hne : lastN VPIN_NUM_BUCKETS vb = []
  · unfold vpinValue
    rw [hne]
    norm_num [listMean, maxD]
  · rcases lt_or_eq_of_le (maxD_nonneg hsub) with hpos | hzero
    · unfold vpinValue
      rw [div_le_one hpos]
      exact listMean_le_maxD hne
    · have hz : ∀ x ∈ lastN VPIN_NUM_BUCKETS vb, x = 0 := by
        intro x hx
        have hx' := mem_le_maxD hx
        rw [← hzero] at hx'
        exact le_antisymm hx' (hsub x hx)
      unfold vpinValue listMean
      rw [List.sum_eq_zero hz]
      norm_num

lemma dequePush_length (n : ℕ) (l : List ℚ) (a : ℚ) :
    (dequePush n l a).length = min (l.length + 1) n := by
  simp [dequePush]
  omega

lemma mem_dequePush {n : ℕ} {l : List ℚ} {a x : ℚ}
    (hx : x ∈ dequePush n l a) : x ∈ l ∨ x = a := by
  have := List.drop_subset _ _ hx
  rcases List.mem_append.mp this with h | h
  · exact Or.inl h
  · exact Or.inr (List.mem_singleton.mp h)

lemma microInv_init : MicroInv initMicroState := by
  refine ⟨by norm_num [initMicroState, VPIN_BUCKET_SIZE], ?_, fun _ => rfl,
    ?_, le_refl 0, zero_le_one⟩
  · intro x hx
    simp [initMicroState] at hx
  · intro h
    simp [initMicroState, VPIN_NUM_BUCKETS] at h

set_option maxRecDepth 8000 in
set_option maxHeartbeats 1000000 in
lemma microInv_step (st : MicroState) (hInv : MicroInv st)
    (price quantity : ℚ) (side : String) :
    MicroInv (update_trade st price quantity side) := by
  obtain ⟨hlen, hnn, hlow, hhigh, hv0, hv1⟩ := hInv
  have e1 : VPIN_BUCKET_SIZE = 50 := rfl
  have e2 : VPIN_NUM_BUCKETS = 50 := rfl
  unfold update_trade
  simp only
  set ti : TradeVol := ⟨if side = "bid" then quantity else 0,
    if side = "ask" then quantity else 0⟩ with hti
  set imb : ℚ := |(List.map TradeVol.buy_volume
      (st.trade_bucket ++ [ti])).sum
    - (List.map TradeVol.sell_volume (st.trade_bucket ++ [ti])).sum| with himb
  set vb : List ℚ := dequePush 100 st.vpin_buckets imb with hvb
  have hnn' : ∀ x ∈ vb, 0 ≤ x := by
    intro x hx
    rcases mem_dequePush hx with h | h
    · exact hnn x h
    · rw [h, himb]
      exact abs_nonneg _
  by_cases hclose : VPIN_BUCKET_SIZE ≤ (st.trade_bucket ++ [ti]).length
  · rw [if_pos hclose]
    by_cases hnum : VPIN_NUM_BUCKETS ≤ vb.length
    · rw [if_pos hnum]
      refine ⟨by rw [e1]; norm_num, hnn',
        fun hc => absurd hnum (not_le.mpr hc),
        fun _ => code_vpin_eq _ hnn', ?_, ?_⟩
      · show 0 ≤ (if 0 < maxD (lastN VPIN_NUM_BUCKETS vb) then
          listMean (lastN VPIN_NUM_BUCKETS vb) / maxD (lastN VPIN_NUM_BUCKETS vb)
          else 0)
        rw [code_vpin_eq _ hnn']
        exact vpinValue_nonneg hnn'
      · show (if 0 < maxD (lastN VPIN_NUM_BUCKETS vb) then
          listMean (lastN VPIN_NUM_BUCKETS vb) / maxD (lastN VPIN_NUM_BUCKETS vb)
          else 0) ≤ 1
        rw [code_vpin_eq _ hnn']
        exact vpinValue_le_one hnn'
    · rw [if_neg hnum]
      refine ⟨by rw [e1]; norm_num, hnn', fun _ => ?_,
        fun hc => absurd hc hnum, hv0, hv1⟩
      refine hlow ?_
      rw [hvb, dequePush_length] at hnum
      omega
  · rw [if_neg hclose]
    refine ⟨?_, hnn, hlow, hhigh, hv0, hv1⟩
    show (st.trade_bucket ++ [ti]).length < VPIN_BUCKET_SIZE
    rw [List.length_append] at hclose ⊢
    simp only [List.length_singleton] at hclose ⊢
    omega

lemma microInv_runTrades (evs : List (ℚ × ℚ × String)) :
    MicroInv (runTrades evs) := by
  suffices h : ∀ st, MicroInv st → MicroInv (evs.foldl
      (fun st e => update_trade st e.1 e.2.1 e.2.2) st) from
    h initMicroState microInv_init
  induction evs with
  | nil => exact fun st h => h
  | cons e t ih => exact fun st h => ih _ (microInv_step st h e.1 e.2.1 e.2.2)

set_option maxRecDepth 8000 in
/-- An `update_trade` call that fills the open bucket to exactly
`VPIN_BUCKET_SIZE` trades closes it: the bucket is emptied and
`|ΣBuy − ΣSell|` is pushed into the (maxlen-100) vpin_buckets deque. -/
lemma update_trade_close (st : MicroState) (price quantity : ℚ)
    (side : String) (h : st.trade_bucket.length + 1 = VPIN_BUCKET_SIZE) :
    (update_trade st price quantity side).trade_bucket = []
      ∧ (update_trade st price quantity side).vpin_buckets
          = dequePush 100 st.vpin_buckets
              |((st.trade_bucket ++ [(⟨if side = "bid" then quantity else 0,
                  if side = "ask" then quantity else 0⟩ : TradeVol)]).map
                  TradeVol.buy_volume).sum
                - ((st.trade_bucket ++ [(⟨if side = "bid" then quantity else 0,
                    if side = "ask" then quantity else 0⟩ : TradeVol)]).map
                    TradeVol.sell_volume).sum| := by
  unfold update_trade
  simp only
  set ti : TradeVol := ⟨if side = "bid" then quantity else 0,
    if side = "ask" then quantity else 0⟩ with hti
  set imb : ℚ := |(List.map TradeVol.buy_volume
      (st.trade_bucket ++ [ti])).sum
    - (List.map TradeVol.sell_volume (st.trade_bucket ++ [ti])).sum| with himb
  set vb : List ℚ := dequePush 100 st.vpin_buckets imb with hvb
  rw [if_pos (by
    rw [List.length_append]
    simp only [List.length_singleton]
    omega)]
  by_cases hnum : VPIN_NUM_BUCKETS ≤ vb.length
  · rw [if_pos hnum]
    exact ⟨rfl, rfl⟩
  · rw [if_neg hnum]
    exact ⟨rfl, rfl⟩

set_option maxRecDepth 8000 in
/-- An `update_trade` call that leaves the open bucket short of
`VPIN_BUCKET_SIZE` trades only appends the classified volumes; closed
buckets and the current VPIN are untouched. -/
lemma update_trade_grow (st : MicroState) (price quantity : ℚ)
    (side : String) (h : st.trade_bucket.length + 1 < VPIN_BUCKET_SIZE) :
    (update_trade st price quantity side).trade_bucket
        = st.trade_bucket ++ [⟨if side = "bid" then quantity else 0,
            if side = "ask" then quantity else 0⟩]
      ∧ (update_trade st price quantity side).vpin_buckets = st.vpin_buckets
      ∧ (update_trade st price quantity side).current_vpin
          = st.current_vpin := by
  unfold update_trade
  simp only
  set ti : TradeVol := ⟨if side = "bid" then quantity else 0,
    if side = "ask" then quantity else 0⟩ with hti
  rw [if_neg (by
    rw [List.length_append]
    simp only [List.length_singleton]
    omega)]
  exact ⟨rfl, rfl, rfl⟩

set_option maxRecDepth 8000 in
/-- C8: along every per-symbol trade sequence, the open bucket always holds
fewer than `VPIN_BUCKET_SIZE = 50` trades and closes exactly when the 50th
arrives, pushing `|ΣBuy − ΣSell|` into the closed buckets and emptying the
open one; `current_vpin` stays 0 until `VPIN_NUM_BUCKETS = 50` closed
buckets exist and from then on equals `mean(last 50 imbalances) / max(last
50 imbalances)`, always lying in `[0, 1]`. -/
theorem vpin_trace_spec (evs : List (ℚ × ℚ × String)) :
    (runTrades evs).trade_bucket.length < VPIN_BUCKET_SIZE
      ∧ (∀ x ∈ (runTrades evs).vpin_buckets, 0 ≤ x)
      ∧ ((runTrades evs).vpin_buckets.length < VPIN_NUM_BUCKETS →
          (runTrades evs).current_vpin = 0)
      ∧ (VPIN_NUM_BUCKETS ≤ (runTrades evs).vpin_buckets.length →
          (runTrades evs).current_vpin = vpinValue (runTrades evs).vpin_buckets)
      ∧ 0 ≤ (runTrades evs).current_vpin
      ∧ (runTrades evs).current_vpin ≤ 1
      ∧ (∀ price quantity side,
          ((runTrades evs).trade_bucket.length + 1 = VPIN_BUCKET_SIZE →
              (update_trade (runTrades evs) price quantity side).trade_bucket
                  = []
                ∧ (update_trade (runTrades evs) price quantity side).vpin_buckets
                    = dequePush 100 (runTrades evs).vpin_buckets
                      |(((runTrades evs).trade_bucket
                          ++ [(⟨if side = "bid" then quantity else 0,
                            if side = "ask" then quantity else 0⟩ : TradeVol)]).map
                          TradeVol.buy_volume).sum
                        - (((runTrades evs).trade_bucket
                            ++ [(⟨if side = "bid" then quantity else 0,
                              if side = "ask" then quantity else 0⟩ : TradeVol)]).map
                            TradeVol.sell_volume).sum|)
            ∧ ((runTrades evs).trade_bucket.length + 1 < VPIN_BUCKET_SIZE →
                (update_trade (runTrades evs) price quantity side).trade_bucket
                    = (runTrades evs).trade_bucket
                      ++ [⟨if side = "bid" then quantity else 0,
                        if side = "ask" then quantity else 0⟩]
                  ∧ (update_trade (runTrades evs) price quantity side).vpin_buckets
                      = (runTrades evs).vpin_buckets
                  ∧ (update_trade (runTrades evs) price quantity side).current_vpin
                      = (runTrades evs).current_vpin)) := by
  obtain ⟨hlen, hnn, hlow, hhigh, hv0, hv1⟩ := microInv_runTrades evs
  exact ⟨hlen, hnn, hlow, hhigh, hv0, hv1, fun price quantity side =>
    ⟨fun hc => update_trade_close _ _ _ _ hc,
      fun hc => update_trade_grow _ _ _ _ hc⟩⟩

/-- C8 witness: on the empty trace the VPIN is 0 (fewer than 50 closed
buckets), and the first "bid" trade of quantity 1 goes into the open bucket
as buy volume 1 / sell volume 0. -/
theorem vpin_trace_spec_witness :
    (runTrades []).current_vpin = 0
      ∧ (update_trade (runTrades []) 100 1 "bid").trade_bucket
          = [⟨1, 0⟩] := by
  have h := vpin_trace_spec []
  refine ⟨h.2.2.1 (by norm_num [runTrades, initMicroState, VPIN_NUM_BUCKETS]),
    ?_⟩
  have hg := (h.2.2.2.2.2.2 100 1 "bid").2
    (by norm_num [runTrades, initMicroState, VPIN_BUCKET_SIZE])
  rw [hg.1]
  norm_num [runTrades, initMicroState]
  decide

end Crypto
